import Mathlib

/-!
Verification development for the pip-local resolver.

The development embeds the resolver's data model and operations:
version ordering and specifier sets (provided in the source by the
external packaging library and therefore modelled from the
specification's contract for them), the wheel-index entry filters and
candidate selection of wheel_index.py, the dependency-marker check and
the requirement-merge / worklist driver of main.py, and the per-variant
torch selection of the top-level main.py.  Definitions come first,
followed by the order-theoretic instances and helper lemmas, followed by
the claim theorems.
-/

open Batteries (OrientedCmp TransCmp)

/-- Elementwise lexicographic comparison of two lists of naturals.
Intended for lists of equal length; any nil case answers `eq`. -/
def lexNatCmp : List Nat → List Nat → Ordering
  | [], _ => .eq
  | _, [] => .eq
  | a :: as, b :: bs => (compare a b).then (lexNatCmp as bs)

/-- Zero-pad a release list on the right up to the length of another list. -/
def padZeros (a b : List Nat) : List Nat := a ++ List.replicate (b.length - a.length) 0

/-- Release-tuple comparison.  Modelled from the spec: versions compare by
numeric release-segment tuples, the shorter tuple compares as zero-padded. -/
def padCmp (a b : List Nat) : Ordering := lexNatCmp (padZeros a b) (padZeros b a)

/-- Structured model of a PEP-440-style package version as the source's
external packaging library exposes it: numeric release segments, an
optional pre-release segment (phase code and number), an optional
development segment, and an optional local build tag such as cu118.
Modelled from the spec's data model for versions. -/
structure Version where
  release : List Nat
  pre : Option (Nat × Nat)
  dev : Option Nat
  localTag : Option String
deriving DecidableEq

/-- Version with a pre-release or development segment counts as a
pre-release, following the external library used by the source. -/
def Version.isPrerelease (v : Version) : Bool := v.pre.isSome || v.dev.isSome

/-- Version with a development segment. -/
def Version.isDevrelease (v : Version) : Bool := v.dev.isSome

/-- Category rank: development-only releases sort lowest, then
pre-releases, then final releases. -/
def catRank (v : Version) : Nat :=
  if v.pre.isNone && v.dev.isNone then 2 else if v.pre.isSome then 1 else 0

/-- Pre-release phase code, defaulting to zero. -/
def prePhase (v : Version) : Nat := (v.pre.map Prod.fst).getD 0

/-- Pre-release number, defaulting to zero. -/
def preNum (v : Version) : Nat := (v.pre.map Prod.snd).getD 0

/-- Development-segment presence rank: a dev release sorts below the
corresponding release without one. -/
def devCat (v : Version) : Nat := if v.dev.isSome then 0 else 1

/-- Development-segment number, defaulting to zero. -/
def devNum (v : Version) : Nat := v.dev.getD 0

/-- Ordering on optional local build tags: absent sorts first, otherwise
compare the tag strings. -/
def localTagCmp : Option String → Option String → Ordering
  | none, none => .eq
  | none, some _ => .lt
  | some _, none => .gt
  | some s, some t => compare s t

/-- Release-segment comparison component of the version order. -/
def releaseCmp (a b : Version) : Ordering := padCmp a.release b.release

/-- Local-tag comparison component of the version order. -/
def localKeyCmp (a b : Version) : Ordering := localTagCmp a.localTag b.localTag

/-- Total comparison of versions: release tuples zero-padded, then the
pre-release and development segments, then the local tag.  Modelled from
the spec's ordering contract for the version algebra. -/
def verCompare : Version → Version → Ordering :=
  compareLex releaseCmp (compareLex (compareOn catRank)
    (compareLex (compareOn prePhase) (compareLex (compareOn preNum)
      (compareLex (compareOn devCat)
        (compareLex (compareOn devNum) localKeyCmp)))))

/-- Boolean less-or-equal on versions, the sort key used throughout. -/
def verLeB (a b : Version) : Bool := (verCompare a b).isLE

/-- Drop the local segment of a version, as the source does with
`split("+", 1)[0]` before constraint checks. -/
def stripLocal (v : Version) : Version :=
  { release := v.release, pre := v.pre, dev := v.dev, localTag := none }

/-- Comparison operators admitted in a constraint clause.  Modelled from
the spec's operator list for parse_constraint. -/
inductive SpecOp
  | eq | ne | le | ge | lt | gt | compat
deriving DecidableEq

/-- Padded equality of release tuples. -/
def relPadEq (a b : List Nat) : Bool := padCmp a b == .eq

/-- Check that a release tuple begins with the given segments, reading a
missing segment as zero; used by compatible-release clauses. -/
def relStartsWith : List Nat → List Nat → Bool
  | [], _ => true
  | a :: as, [] => a == 0 && relStartsWith as []
  | a :: as, b :: bs => a == b && relStartsWith as bs

/-- One (operator, version) clause of a version constraint. -/
structure Specifier where
  op : SpecOp
  version : Version
deriving DecidableEq

/-- Version matching for an equality clause: release tuples compare
zero-padded, pre-release and development segments must agree, and the
candidate's local tag is ignored unless the clause itself carries one. -/
def specEqMatch (sv v : Version) : Bool :=
  relPadEq v.release sv.release && v.pre == sv.pre && v.dev == sv.dev &&
    (match sv.localTag with
     | none => true
     | some _ => v.localTag == sv.localTag)

/-- Membership of a version in a single clause.  Modelled from the spec:
the constraint algebra lives in the external packaging library; ordering
clauses compare the candidate with its local segment stripped. -/
def Specifier.containsVer (s : Specifier) (v : Version) : Bool :=
  match s.op with
  | .eq => specEqMatch s.version v
  | .ne => !(specEqMatch s.version v)
  | .le => (verCompare (stripLocal v) (stripLocal s.version)).isLE
  | .ge => (verCompare (stripLocal s.version) (stripLocal v)).isLE
  | .lt => verCompare (stripLocal v) (stripLocal s.version) == .lt
  | .gt => verCompare (stripLocal v) (stripLocal s.version) == .gt
  | .compat =>
      (verCompare (stripLocal s.version) (stripLocal v)).isLE &&
        relStartsWith s.version.release.dropLast v.release

/-- Version constraint: a conjunction of clauses, per the spec's data
model for VersionConstraint. -/
abbrev SpecifierSet := List Specifier

/-- Accept-pre-release contribution of one clause: an inclusive clause
whose own version carries a pre-release or development segment enables
pre-releases for the whole constraint; an exclusion clause does not.
Modelled from the spec: pre-releases are excluded by default unless a
constraint explicitly pins such a version. -/
def Specifier.prereleasesFlag (s : Specifier) : Bool :=
  match s.op with
  | .ne => false
  | _ => s.version.isPrerelease

/-- Accept-pre-release flag of a constraint: some clause enables it. -/
def SpecifierSet.prereleases (ss : SpecifierSet) : Bool :=
  ss.any fun s => s.prereleasesFlag

/-- Membership of a version in a constraint: a pre-release or
development release is rejected outright unless the constraint's
accept-pre-release flag is on; otherwise every clause must accept it by
its arithmetic test (the resolved flag is handed down to the clauses,
so their own pre-release gates never fire separately). -/
def SpecifierSet.containsVer (ss : SpecifierSet) (v : Version) : Bool :=
  if v.isPrerelease && !(SpecifierSet.prereleases ss) then false
  else ss.all fun s => s.containsVer v

/-- Intersection of two constraints: the union of their clause lists, as
the packaging library's and-operator builds it.  Forming it always
succeeds; an unsatisfiable result is never rejected here. -/
def SpecifierSet.intersect (a b : SpecifierSet) : SpecifierSet := a ++ b

/-- Compatibility tag, an opaque token compared only for equality. -/
abbrev Tag := String

/-- Entry of the wheel index as wheel_index.py builds it: the link data
merged with the fields parsed from the artifact file name. -/
structure PEntry where
  name : String
  url : String
  package_name : String
  package_version : Version
  tags : Option (List Tag)
  extension : String
deriving DecidableEq

/-- Tag filter of get_suitable_package: entries without tags pass, and a
tagged entry passes when one of its tags occurs in the system profile. -/
def filter_by_tag (sys_prof : List Tag) (x : PEntry) : Bool :=
  match x.tags with
  | none => true
  | some ts => ts.any fun tag => sys_prof.contains tag

/-- Version filter of get_suitable_package: pre-releases and development
releases are dropped unconditionally, then the constraint must accept
the version. -/
def filter_by_version (pa_ver_spec : SpecifierSet) (x : PEntry) : Bool :=
  let ver := x.package_version
  if ver.isPrerelease then false
  else if ver.isDevrelease then false
  else SpecifierSet.containsVer pa_ver_spec ver

/-- Extension filter of get_suitable_package, keeping the source's
spelling: only wheel artifacts are considered. -/
def filter_by_extrension (x : PEntry) : Bool := x.extension == "whl"

/-- Candidate selection from wheel_index.py: filter by tag, then by
version and constraint, then keep only wheels; the last remaining entry
is the best match and the others are the fallback candidates.  The
source raises ValueError when nothing remains, modelled as none. -/
def get_suitable_package (pa_name : String) (pa_index : List PEntry)
    (pa_ver_spec : SpecifierSet) (sys_prof : List Tag) :
    Option (PEntry × List PEntry) :=
  let filt_pa := pa_index.filter (filter_by_tag sys_prof)
  let filt_pa := filt_pa.filter (filter_by_version pa_ver_spec)
  let filt_pa := filt_pa.filter filter_by_extrension
  match filt_pa.getLast? with
  | none => none
  | some best => some (best, filt_pa.dropLast)

/-- Entries that survive all the filters of get_suitable_package. -/
def wheelSurvivors (pa_index : List PEntry) (pa_ver_spec : SpecifierSet)
    (sys_prof : List Tag) : List PEntry :=
  ((pa_index.filter (filter_by_tag sys_prof)).filter
    (filter_by_version pa_ver_spec)).filter filter_by_extrension

/-- Entries that survive the tag and the version filters of
get_suitable_package, before the wheel-only extension filter. -/
def tagVerSurvivors (pa_index : List PEntry) (pa_ver_spec : SpecifierSet)
    (sys_prof : List Tag) : List PEntry :=
  (pa_index.filter (filter_by_tag sys_prof)).filter (filter_by_version pa_ver_spec)

/-- Components of the canonical string rendering of a version, as
persisted in the JSON index cache.  Modelled from the spec: formatting
then parsing round-trips to a comparison-equal value, so the rendering
is represented by its parsed components. -/
structure VersionStr where
  release : List Nat
  pre : Option (Nat × Nat)
  dev : Option Nat
  localTag : Option String
deriving DecidableEq

/-- Render a version to its canonical string form. -/
def strVersion (v : Version) : VersionStr := ⟨v.release, v.pre, v.dev, v.localTag⟩

/-- Parse a rendered version back. -/
def parseVersion (s : VersionStr) : Version := ⟨s.release, s.pre, s.dev, s.localTag⟩

/-- Entry as persisted in the on-disk JSON index file. -/
structure EncEntry where
  name : String
  url : String
  package_name : String
  package_version : VersionStr
  tags : Option (List Tag)
  extension : String
deriving DecidableEq

/-- Left fold of list concatenation seeded with the first element: the
reduce call of decode_index_data, defined on a nonempty argument. -/
def reduceAppend : List (List Tag) → List Tag
  | [] => []
  | x :: xs => xs.foldl (fun a b => a ++ b) x

/-- Decoding of one cached entry: the version string is parsed, and each
tag string expands through parse_tag (a singleton here) with the results
concatenated by the reduce call. -/
def decode_index_data (x : EncEntry) : PEntry :=
  { name := x.name, url := x.url, package_name := x.package_name,
    package_version := parseVersion x.package_version,
    tags := x.tags.map fun ts => reduceAppend (ts.map fun t => [t]),
    extension := x.extension }

/-- Encoding of one entry for the JSON cache: the version is rendered to
its string form and the tag strings stay as they are. -/
def encode_index_data (x : PEntry) : EncEntry :=
  { name := x.name, url := x.url, package_name := x.package_name,
    package_version := strVersion x.package_version,
    tags := x.tags,
    extension := x.extension }

/-- State of the index sources for one package name: the in-process
cache entry and the on-disk JSON file. -/
structure IndexState where
  cache : Option (List PEntry)
  file : Option (List EncEntry)

/-- Index lookup from wheel_index.py for one package name: the memory
cache wins, then the on-disk file is decoded, and otherwise the fetched
listing is sorted ascending by version, memoized, and persisted. -/
def get_wheel_index (st : IndexState) (fetched : List PEntry) :
    List PEntry × IndexState :=
  match st.cache with
  | some cached => (cached, st)
  | none =>
    match st.file with
    | some index_json => (index_json.map decode_index_data, st)
    | none =>
      let index_data :=
        fetched.mergeSort fun a b => verLeB a.package_version b.package_version
      (index_data,
        { cache := some index_data,
          file := some (index_data.map encode_index_data) })

/-- Ascending-by-version ordering of an index slice. -/
abbrev SortedIndex (l : List PEntry) : Prop :=
  l.Pairwise fun a b => verLeB a.package_version b.package_version = true

/-- Invariant on the index sources: whatever the cache or the file
holds decodes to an ascending list. -/
abbrev IndexInv (st : IndexState) : Prop :=
  (∀ c, st.cache = some c → SortedIndex c) ∧
  (∀ f, st.file = some f → SortedIndex (f.map decode_index_data))

/-- Environment mapping used by marker evaluation. -/
def MarkerEnv := String → String

/-- Dependency marker.  Modelled from the spec: evaluation is a pure
boolean function of an environment mapping, supplied by the external
packaging library. -/
def Marker := MarkerEnv → Bool

/-- Environment extended with one key, as the dict-merge in the source. -/
def envInsert (env : MarkerEnv) (k v : String) : MarkerEnv :=
  fun q => if q == k then v else env q

/-- Parsed dependency declaration from a wheel's metadata, as
wheel_parse.py returns it. -/
structure PkgDep where
  package_name : String
  package_extra : List String
  package_version : SpecifierSet
  package_markers : List Marker

/-- Left fold of boolean or seeded with the first element: the reduce
call of check_package_dependency, defined on a nonempty argument. -/
def reduceOr : List Bool → Bool
  | [] => false
  | x :: xs => xs.foldl (fun a b => a || b) x

/-- Activity check from main.py: an empty requested-extras list is
replaced by the single empty extra, and every marker must evaluate true
under the environment extended with at least one of the requested
extras. -/
def check_package_dependency (pkg_dep : PkgDep) (extra : List String)
    (py_env : MarkerEnv) : Bool :=
  let pkg_markers := pkg_dep.package_markers
  let extra := if extra.length == 0 then [""] else extra
  pkg_markers.all fun marker =>
    reduceOr (extra.map fun e => marker (envInsert py_env "extra" e))

/-- Requirement record held in the driver's requirement map. -/
structure ReqEntry where
  package_extra : List String
  package_version : SpecifierSet
deriving DecidableEq

/-- Merge of an active dependency into an existing requirement, from the
driver loop: the extras become the set union and the constraint gains
the new clauses. -/
def merge_requirement (old : ReqEntry) (dep_extra : List String)
    (dep_ver : SpecifierSet) : ReqEntry :=
  { package_extra := (old.package_extra ++ dep_extra).dedup,
    package_version := SpecifierSet.intersect old.package_version dep_ver }

/-- Dependency declaration as the driver consumes it after the marker
check. -/
structure DepDecl where
  package_name : String
  package_extra : List String
  package_version : SpecifierSet
deriving DecidableEq

/-- Fold one active dependency into the requirement map: merge when the
name is already present, insert a fresh requirement otherwise. -/
def merge_dep (reqs : List (String × ReqEntry)) (d : DepDecl) :
    List (String × ReqEntry) :=
  if reqs.any fun p => p.1 == d.package_name then
    reqs.map fun p =>
      if p.1 == d.package_name then
        (p.1, merge_requirement p.2 d.package_extra d.package_version)
      else p
  else reqs ++ [(d.package_name, ⟨d.package_extra, d.package_version⟩)]

/-- Driver state: the pending-name worklist and the requirement map. -/
structure DriverState where
  dep_pkg_names : List String
  new_req : List (String × ReqEntry)
deriving DecidableEq

/-- One iteration of the dependency worklist loop of main.py: the head
name is popped, and each active dependency of the selected artifact is
appended to the worklist unconditionally and merged into the requirement
map.  The loop finishes when the worklist is empty. -/
def driver_step (active_deps : String → List DepDecl) (s : DriverState) :
    Option DriverState :=
  match s.dep_pkg_names with
  | [] => none
  | pkg_name :: rest =>
    let req_deps := active_deps pkg_name
    some { dep_pkg_names := rest ++ req_deps.map fun d => d.package_name,
           new_req := req_deps.foldl merge_dep s.new_req }

/-- Verification-with-backtracking loop of main.py, abstracted over the
check that the fetched artifact's declared interpreter requirement
accepts the target runtime: on failure the loop pops the next candidate
and retries; running out of candidates is the fatal failure, modelled as
none.  The candidate list is consumed newest-first. -/
def verify_backtrack_rev (verify : PEntry → Bool) : PEntry → List PEntry → Option PEntry
  | best_match, rev_candidate =>
    if verify best_match then some best_match
    else
      match rev_candidate with
      | [] => none
      | nxt :: rest => verify_backtrack_rev verify nxt rest

/-- Entry point of the loop on the candidate list in its source order:
the list is reversed so that popping its last element is taking the head
of the reversed list. -/
def verify_backtrack (verify : PEntry → Bool) (best_match : PEntry)
    (candidate : List PEntry) : Option PEntry :=
  verify_backtrack_rev verify best_match candidate.reverse

/-- Entry of the index built by the top-level main.py, whose file-name
fields stay as separate strings; the raw version string is modelled by
its parsed components. -/
structure MEntry where
  name : String
  url : String
  package_name : String
  package_version : Version
  python_version : String
  python_abi : String
  platform : String
  extension : String
deriving DecidableEq

/-- Splitting of a character list at every dot, keeping empty pieces,
with the Python split semantics the source relies on. -/
def splitDotsAux : List Char → List Char → List (List Char)
  | acc, [] => [acc.reverse]
  | acc, c :: cs =>
    if c == '.' then acc.reverse :: splitDotsAux [] cs
    else splitDotsAux (c :: acc) cs

/-- Dotted split of a string into its pieces. -/
def splitDots (s : String) : List (List Char) := splitDotsAux [] s.data

/-- Interpreter token such as cp310 built from a dotted runtime version
string, as in the torch selection. -/
def py_version_str (python_version : String) : String :=
  let py_version_sep := splitDots python_version
  "cp" ++ String.mk (py_version_sep.headD []) ++
    String.mk ((py_version_sep.drop 1).headD [])

/-- Interpreter filter of the torch selection: an exact interpreter and
ABI match, a generic py3 interpreter, the stable abi3, or no ABI. -/
def filter_python_version (pvs : String) (x : MEntry) : Bool :=
  if pvs == x.python_version && pvs == x.python_abi then true
  else if "py3" == x.python_version then true
  else if x.python_abi == "abi3" then true
  else if x.python_abi == "none" then true
  else false

/-- Occurrence of a CUDA variant token in the raw version string,
modelled as equality with the version's local tag since the variant
wheels embed the token as their local segment. -/
def versionHasTag (v : Version) (t : String) : Bool := v.localTag == some t

/-- Requested version entry of the required-packages table: either the
word latest or a parsed constraint list. -/
inductive ReqVer
  | latest
  | vers (spec : SpecifierSet)
deriving DecidableEq

/-- Constraint check of filter_package_version: the candidate version is
taken up to its plus sign and tested against the parsed constraint. -/
def filter_package_version (spec : SpecifierSet) (pkg : MEntry) : Bool :=
  SpecifierSet.containsVer spec (stripLocal pkg.package_version)

/-- Last element as a singleton list, for the append-the-best steps of
the torch selection. -/
def lastToList (l : List MEntry) : List MEntry :=
  match l.getLast? with
  | none => []
  | some x => [x]

/-- Processing of one requested version against the three sorted CUDA
variant tracks: latest appends the newest wheel of each nonempty track;
a constraint filters each track and appends the newest survivor of each
nonempty filtered track, failing when all three are empty. -/
def torch_req_step (cu118 cu126 cu128 : List MEntry) (acc : List MEntry) :
    ReqVer → Option (List MEntry)
  | .latest =>
    some (acc ++ lastToList cu118 ++ lastToList cu126 ++ lastToList cu128)
  | .vers spec =>
    let f118 := cu118.filter (filter_package_version spec)
    let f126 := cu126.filter (filter_package_version spec)
    let f128 := cu128.filter (filter_package_version spec)
    if f118.length == 0 && f126.length == 0 && f128.length == 0 then none
    else some (acc ++ lastToList f118 ++ lastToList f126 ++ lastToList f128)

/-- Torch-family selection of the top-level main.py: filter by
interpreter, keep wheels, split into the three CUDA variant tracks, sort
each ascending by version, and process every requested version,
collecting one best wheel per nonempty track. -/
def get_suitable_torch_package_impl (package_data : List MEntry)
    (package_name : String) (python_version : String)
    (required_packages : List (String × List ReqVer)) :
    Option (List MEntry) :=
  let pvs := py_version_str python_version
  let candidate_package := package_data.filter (filter_python_version pvs)
  let candidate_wheel := candidate_package.filter fun x => x.extension == "whl"
  let candidate_wheel_cu118 :=
    (candidate_wheel.filter fun x => versionHasTag x.package_version "cu118").mergeSort
      fun a b => verLeB a.package_version b.package_version
  let candidate_wheel_cu126 :=
    (candidate_wheel.filter fun x => versionHasTag x.package_version "cu126").mergeSort
      fun a b => verLeB a.package_version b.package_version
  let candidate_wheel_cu128 :=
    (candidate_wheel.filter fun x => versionHasTag x.package_version "cu128").mergeSort
      fun a b => verLeB a.package_version b.package_version
  match List.lookup package_name required_packages with
  | none => none
  | some required_versions =>
    List.foldlM
      (torch_req_step candidate_wheel_cu118 candidate_wheel_cu126 candidate_wheel_cu128)
      [] required_versions

/-- Unsorted survivors of one CUDA variant track of the torch selection
under a constraint. -/
def torchTrackSurvivors (package_data : List MEntry) (python_version : String)
    (spec : SpecifierSet) (t : String) : List MEntry :=
  (((package_data.filter (filter_python_version (py_version_str python_version))).filter
      fun x => x.extension == "whl").filter
    fun x => versionHasTag x.package_version t).filter (filter_package_version spec)

/-- Example final version 1.0. -/
def ver10 : Version := ⟨[1, 0], none, none, none⟩

/-- Example final version 2.0. -/
def ver20 : Version := ⟨[2, 0], none, none, none⟩

/-- Example release-candidate version 1.2.3rc1. -/
def verRc : Version := ⟨[1, 2, 3], some (2, 1), none, none⟩

/-- Example variant version 2.5.1+cu118. -/
def ver251cu118 : Version := ⟨[2, 5, 1], none, none, some "cu118"⟩

/-- Example variant version 2.5.1+cu126. -/
def ver251cu126 : Version := ⟨[2, 5, 1], none, none, some "cu126"⟩

/-- Example base version 2.5.1. -/
def ver251 : Version := ⟨[2, 5, 1], none, none, none⟩

/-- Example universally-tagged wheel entry at version 1.0. -/
def exWheel10 : PEntry :=
  ⟨"pkg-1.0-py3-none-any.whl", "url1", "pkg", ver10, some ["py3-none-any"], "whl"⟩

/-- Example source distribution entry at version 2.0. -/
def exSdist20 : PEntry :=
  ⟨"pkg-2.0.tar.gz", "url2", "pkg", ver20, none, "tar.gz"⟩

/-- Example wheel entry at the release-candidate version. -/
def exRcWheel : PEntry :=
  ⟨"pkg-1.2.3rc1-py3-none-any.whl", "url3", "pkg", verRc, some ["py3-none-any"], "whl"⟩

/-- Constraint pinning exactly the release-candidate version. -/
def exSpecRc : SpecifierSet := [⟨SpecOp.eq, verRc⟩]

/-- Constraint pinning exactly the base version 2.5.1. -/
def exSpec251 : SpecifierSet := [⟨SpecOp.eq, ver251⟩]

/-- Example torch wheel on the cu118 track. -/
def exTorch118 : MEntry :=
  ⟨"torch-2.5.1+cu118-cp310-cp310-linux_x86_64.whl", "u118", "torch",
    ver251cu118, "cp310", "cp310", "linux_x86_64", "whl"⟩

/-- Example torch wheel on the cu126 track. -/
def exTorch126 : MEntry :=
  ⟨"torch-2.5.1+cu126-cp310-cp310-linux_x86_64.whl", "u126", "torch",
    ver251cu126, "cp310", "cp310", "linux_x86_64", "whl"⟩

/-- Dependency graph with one package that actively depends on itself
with no extras and an empty constraint. -/
def exGraph : String → List DepDecl :=
  fun n => if n == "A" then [⟨"A", [], []⟩] else []

/-- Driver state whose worklist holds that package while its requirement
is already recorded unchanged. -/
def exDriverState : DriverState := ⟨["A"], [("A", ⟨[], []⟩)]⟩

theorem lexNatCmp_refl (a : List Nat) : lexNatCmp a a = .eq := by
  induction a with
  | nil => rfl
  | cons x xs ih => simp [lexNatCmp, Nat.compare_eq_eq.mpr rfl, ih, Ordering.then]

theorem lexNatCmp_symm (a b : List Nat) : lexNatCmp b a = (lexNatCmp a b).swap := by
  induction a generalizing b with
  | nil => cases b <;> rfl
  | cons x xs ih =>
    cases b with
    | nil => rfl
    | cons y ys =>
      show (compare y x).then (lexNatCmp ys xs) = ((compare x y).then (lexNatCmp xs ys)).swap
      have hyx : (compare x y).swap = compare y x := Batteries.OrientedCmp.symm x y
      rw [Ordering.swap_then, ih, ← hyx]

theorem lexNatCmp_append_replicate (k : Nat) :
    ∀ a b : List Nat, a.length = b.length →
      lexNatCmp (a ++ List.replicate k 0) (b ++ List.replicate k 0) = lexNatCmp a b := by
  intro a
  induction a with
  | nil =>
    intro b hb
    have hb0 : b = [] := by cases b <;> simp_all
    subst hb0
    simpa [lexNatCmp] using lexNatCmp_refl (List.replicate k 0)
  | cons x xs ih =>
    intro b hb
    cases b with
    | nil => simp at hb
    | cons y ys =>
      have hlen : xs.length = ys.length := by simpa using hb
      simp only [List.cons_append, lexNatCmp, List.append_eq]
      rw [ih ys hlen]

theorem lexNatCmp_le_trans :
    ∀ a b c : List Nat, a.length = b.length → b.length = c.length →
      lexNatCmp a b ≠ .gt → lexNatCmp b c ≠ .gt → lexNatCmp a c ≠ .gt := by
  intro a
  induction a with
  | nil => intro b c _ _ _ _; simp [lexNatCmp]
  | cons x xs ih =>
    intro b c hab hbc h1 h2
    cases b with
    | nil => simp at hab
    | cons y ys =>
      cases c with
      | nil => simp at hbc
      | cons z zs =>
        simp only [lexNatCmp, ne_eq, Ordering.then_eq_gt, not_or, not_and,
          Nat.compare_eq_gt, Nat.compare_eq_eq, not_lt] at h1 h2 ⊢
        obtain ⟨h1a, h1b⟩ := h1
        obtain ⟨h2a, h2b⟩ := h2
        refine ⟨by omega, fun hxz => ?_⟩
        have hxy : x = y := by omega
        have hyz : y = z := by omega
        exact ih ys zs (by simpa using hab) (by simpa using hbc) (h1b hxy) (h2b hyz)

theorem padZeros_length (a b : List Nat) :
    (padZeros a b).length = max a.length b.length := by
  simp [padZeros]; omega

theorem padZeros_append (a b : List Nat) (N : Nat) (ha : a.length ≤ N) (hb : b.length ≤ N) :
    padZeros a b ++ List.replicate (N - max a.length b.length) 0 =
      a ++ List.replicate (N - a.length) 0 := by
  rw [padZeros, List.append_assoc, ← List.replicate_add]
  congr 2
  omega

theorem padCmp_eq_lexNatCmp (a b : List Nat) (N : Nat) (ha : a.length ≤ N) (hb : b.length ≤ N) :
    padCmp a b = lexNatCmp (a ++ List.replicate (N - a.length) 0)
      (b ++ List.replicate (N - b.length) 0) := by
  rw [← padZeros_append a b N ha hb, ← padZeros_append b a N hb ha]
  have hmax : max b.length a.length = max a.length b.length := Nat.max_comm _ _
  rw [hmax, padCmp, lexNatCmp_append_replicate]
  rw [padZeros_length, padZeros_length]
  exact Nat.max_comm _ _

instance : TransCmp padCmp where
  symm a b := (lexNatCmp_symm (padZeros a b) (padZeros b a)).symm
  le_trans {a b c} h1 h2 := by
    have ha : a.length ≤ max a.length (max b.length c.length) := by omega
    have hb : b.length ≤ max a.length (max b.length c.length) := by omega
    have hc : c.length ≤ max a.length (max b.length c.length) := by omega
    rw [padCmp_eq_lexNatCmp a b _ ha hb] at h1
    rw [padCmp_eq_lexNatCmp b c _ hb hc] at h2
    rw [padCmp_eq_lexNatCmp a c _ ha hc]
    exact lexNatCmp_le_trans _ _ _ (by simp) (by simp) h1 h2

instance : TransCmp localTagCmp where
  symm a b := by
    cases a <;> cases b
    · rfl
    · rfl
    · rfl
    · show (compare _ _).swap = compare _ _
      exact Batteries.OrientedCmp.symm _ _
  le_trans {a b c} h1 h2 := by
    cases a <;> cases b <;> cases c <;>
      first
        | exact (h1 rfl).elim
        | exact (h2 rfl).elim
        | (show compare _ _ ≠ Ordering.gt
           exact Batteries.TransCmp.le_trans
             (show compare _ _ ≠ Ordering.gt from h1)
             (show compare _ _ ≠ Ordering.gt from h2))
        | simp [localTagCmp]

instance : TransCmp releaseCmp where
  symm a b := by
    show (padCmp a.release b.release).swap = padCmp b.release a.release
    exact Batteries.OrientedCmp.symm _ _
  le_trans {a b c} h1 h2 := by
    show padCmp a.release c.release ≠ Ordering.gt
    exact Batteries.TransCmp.le_trans
      (show padCmp a.release b.release ≠ Ordering.gt from h1)
      (show padCmp b.release c.release ≠ Ordering.gt from h2)

instance : TransCmp localKeyCmp where
  symm a b := by
    show (localTagCmp a.localTag b.localTag).swap = localTagCmp b.localTag a.localTag
    exact Batteries.OrientedCmp.symm _ _
  le_trans {a b c} h1 h2 := by
    show localTagCmp a.localTag c.localTag ≠ Ordering.gt
    exact Batteries.TransCmp.le_trans
      (show localTagCmp a.localTag b.localTag ≠ Ordering.gt from h1)
      (show localTagCmp b.localTag c.localTag ≠ Ordering.gt from h2)

instance : TransCmp verCompare :=
  inferInstanceAs (TransCmp (compareLex releaseCmp (compareLex (compareOn catRank)
    (compareLex (compareOn prePhase) (compareLex (compareOn preNum)
      (compareLex (compareOn devCat) (compareLex (compareOn devNum) localKeyCmp)))))))

theorem verLeB_eq_true_iff (a b : Version) : verLeB a b = true ↔ verCompare a b ≠ .gt := by
  rw [verLeB]
  cases verCompare a b <;> simp [Ordering.isLE]

theorem verLeB_refl (a : Version) : verLeB a a = true := by
  rw [verLeB_eq_true_iff]
  have h : verCompare a a = Ordering.eq := Batteries.OrientedCmp.cmp_refl
  rw [h]
  simp

theorem verLeB_trans {a b c : Version} (h1 : verLeB a b = true) (h2 : verLeB b c = true) :
    verLeB a c = true := by
  rw [verLeB_eq_true_iff] at h1 h2 ⊢
  exact Batteries.TransCmp.le_trans h1 h2

theorem verLeB_total (a b : Version) : (verLeB a b || verLeB b a) = true := by
  rcases h : verCompare a b with _ | _ | _
  · simp [verLeB, h, Ordering.isLE]
  · simp [verLeB, h, Ordering.isLE]
  · have hba : verCompare b a = .lt := Batteries.OrientedCmp.cmp_eq_gt.mp h
    simp [verLeB, h, hba, Ordering.isLE]

theorem pairwise_le_getLast {α : Type} (key : α → Version) (l : List α)
    (hp : l.Pairwise fun a b => verLeB (key a) (key b) = true) (hne : l ≠ []) :
    ∀ x ∈ l, verLeB (key x) (key (l.getLast hne)) = true := by
  intro x hx
  have hsplit := List.dropLast_append_getLast hne
  have hp2 : (l.dropLast ++ [l.getLast hne]).Pairwise
      fun a b => verLeB (key a) (key b) = true := by rw [hsplit]; exact hp
  rw [List.pairwise_append] at hp2
  have hx2 : x ∈ l.dropLast ++ [l.getLast hne] := by rw [hsplit]; exact hx
  rcases List.mem_append.mp hx2 with h | h
  · exact hp2.2.2 x h _ (List.mem_singleton_self _)
  · rw [List.mem_singleton] at h
    rw [h]
    exact verLeB_refl _

theorem specSet_prereleases_append (a b : SpecifierSet) :
    SpecifierSet.prereleases (a ++ b) =
      (SpecifierSet.prereleases a || SpecifierSet.prereleases b) := by
  simp [SpecifierSet.prereleases, List.any_append]

theorem containsVer_gate_true {ss : SpecifierSet} {v : Version}
    (h : SpecifierSet.containsVer ss v = true) (hv : v.isPrerelease = true) :
    SpecifierSet.prereleases ss = true ∧ ∀ s ∈ ss, s.containsVer v = true := by
  rw [SpecifierSet.containsVer] at h
  cases hf : SpecifierSet.prereleases ss with
  | false => rw [hv, hf] at h; simp at h
  | true =>
    rw [hv, hf] at h
    simp at h
    exact ⟨rfl, h⟩

theorem intersect_containsVer_of_not_pre (a b : SpecifierSet) (v : Version)
    (hv : v.isPrerelease = false) :
    SpecifierSet.containsVer (SpecifierSet.intersect a b) v =
      (SpecifierSet.containsVer a v && SpecifierSet.containsVer b v) := by
  simp [SpecifierSet.containsVer, SpecifierSet.intersect, hv, List.all_append]

theorem intersect_containsVer_of_both (a b : SpecifierSet) (v : Version)
    (h1 : SpecifierSet.containsVer a v = true)
    (h2 : SpecifierSet.containsVer b v = true) :
    SpecifierSet.containsVer (SpecifierSet.intersect a b) v = true := by
  cases hv : v.isPrerelease with
  | false =>
    simp only [SpecifierSet.containsVer, hv, Bool.false_and, Bool.if_false_left,
      Bool.not_false, Bool.and_true] at h1 h2 ⊢
    simp only [SpecifierSet.intersect, List.all_append]
    simp at h1 h2 ⊢
    exact ⟨h1, h2⟩
  | true =>
    obtain ⟨ha, h1a⟩ := containsVer_gate_true h1 hv
    obtain ⟨hb, h2a⟩ := containsVer_gate_true h2 hv
    have hflag : SpecifierSet.prereleases (SpecifierSet.intersect a b) = true := by
      rw [SpecifierSet.intersect, specSet_prereleases_append, ha]
      rfl
    rw [SpecifierSet.containsVer, hv, hflag]
    simp only [Bool.not_true, Bool.and_false, Bool.false_eq_true, if_false]
    rw [SpecifierSet.intersect, List.all_append]
    simp only [Bool.and_eq_true, List.all_eq_true]
    exact ⟨h1a, h2a⟩

theorem foldl_or_eq (xs : List Bool) :
    ∀ a, xs.foldl (fun p q => p || q) a = (a || xs.any fun b => b) := by
  induction xs with
  | nil => intro a; simp
  | cons y ys ih => intro a; simp [List.foldl_cons, ih, List.any_cons, Bool.or_assoc]

theorem reduceOr_eq_any (l : List Bool) : reduceOr l = l.any fun b => b := by
  cases l with
  | nil => rfl
  | cons x xs => simp [reduceOr, foldl_or_eq, List.any_cons]

theorem foldl_append_acc (xs : List Tag) :
    ∀ acc : List Tag, (xs.map fun t => [t]).foldl (fun a b => a ++ b) acc = acc ++ xs := by
  induction xs with
  | nil => intro acc; simp
  | cons x xs ih => intro acc; simp [ih]

theorem reduceAppend_singletons (l : List Tag) : reduceAppend (l.map fun t => [t]) = l := by
  cases l with
  | nil => rfl
  | cons x xs => simp [reduceAppend, foldl_append_acc]

theorem decode_encode (e : PEntry) : decode_index_data (encode_index_data e) = e := by
  cases e with
  | mk n u pn pv tg ex =>
    cases tg with
    | none => simp [decode_index_data, encode_index_data, parseVersion, strVersion]
    | some ts =>
      simp [decode_index_data, encode_index_data, parseVersion, strVersion,
        reduceAppend_singletons]

theorem get_suitable_package_eq (pa_name : String) (pa_index : List PEntry)
    (pa_ver_spec : SpecifierSet) (sys_prof : List Tag) :
    get_suitable_package pa_name pa_index pa_ver_spec sys_prof =
      match (wheelSurvivors pa_index pa_ver_spec sys_prof).getLast? with
      | none => none
      | some best => some (best, (wheelSurvivors pa_index pa_ver_spec sys_prof).dropLast) :=
  rfl

theorem filter_by_version_no_pre {spec : SpecifierSet} {x : PEntry}
    (h : filter_by_version spec x = true) :
    x.package_version.isPrerelease = false ∧ x.package_version.isDevrelease = false := by
  by_cases hp : x.package_version.isPrerelease
  · simp [filter_by_version, hp] at h
  · by_cases hd : x.package_version.isDevrelease
    · simp [filter_by_version, hp, hd] at h
    · exact ⟨by simpa using hp, by simpa using hd⟩

theorem mem_wheelSurvivors {x : PEntry} {pa_index : List PEntry} {spec : SpecifierSet}
    {prof : List Tag} (hx : x ∈ wheelSurvivors pa_index spec prof) :
    filter_by_version spec x = true ∧ filter_by_extrension x = true := by
  rw [wheelSurvivors, List.mem_filter] at hx
  exact ⟨(List.mem_filter.mp hx.1).2, hx.2⟩

theorem verify_backtrack_rev_some (verify : PEntry → Bool) (rev : List PEntry) :
    ∀ (best_match : PEntry) (r : PEntry),
      verify_backtrack_rev verify best_match rev = some r → verify r = true := by
  induction rev with
  | nil =>
    intro best_match r h
    rw [verify_backtrack_rev] at h
    by_cases hv : verify best_match
    · simp [hv] at h
      rw [← h]
      exact hv
    · simp [hv] at h
  | cons nxt rest ih =>
    intro best_match r h
    rw [verify_backtrack_rev] at h
    by_cases hv : verify best_match
    · simp [hv] at h
      rw [← h]
      exact hv
    · simp [hv] at h
      exact ih nxt r h

theorem verify_backtrack_some (verify : PEntry → Bool) (best_match : PEntry)
    (candidate : List PEntry) (r : PEntry)
    (h : verify_backtrack verify best_match candidate = some r) : verify r = true :=
  verify_backtrack_rev_some verify candidate.reverse best_match r h

theorem sortedIndex_mergeSort (l : List PEntry) :
    SortedIndex (l.mergeSort fun a b => verLeB a.package_version b.package_version) :=
  @List.sorted_mergeSort PEntry (fun a b => verLeB a.package_version b.package_version)
    (fun _ _ _ h1 h2 => verLeB_trans h1 h2)
    (fun a b => verLeB_total a.package_version b.package_version) l

theorem filter_mergeSort_getLast_max (l : List MEntry) (p : MEntry → Bool) (b : MEntry)
    (hb : ((l.mergeSort fun a b => verLeB a.package_version b.package_version).filter
        p).getLast? = some b) :
    b ∈ l.filter p ∧ ∀ e ∈ l.filter p, verLeB e.package_version b.package_version = true := by
  have hsorted : (l.mergeSort fun a b =>
      verLeB a.package_version b.package_version).Pairwise
        fun a b => verLeB a.package_version b.package_version = true :=
    @List.sorted_mergeSort MEntry (fun a b => verLeB a.package_version b.package_version)
      (fun _ _ _ h1 h2 => verLeB_trans h1 h2)
      (fun a b => verLeB_total a.package_version b.package_version) l
  have hfp := hsorted.filter p
  have hne : (l.mergeSort fun a b =>
      verLeB a.package_version b.package_version).filter p ≠ [] := by
    intro he
    rw [he] at hb
    simp at hb
  have hlast := (List.getLast?_eq_getLast _ hne).symm.trans hb
  have hlast2 := Option.some_inj.mp hlast
  have hperm := (l.mergeSort_perm fun a b =>
    verLeB a.package_version b.package_version).filter p
  constructor
  · rw [← hlast2]
    exact hperm.mem_iff.mp (List.getLast_mem hne)
  · intro e he
    have he2 := hperm.mem_iff.mpr he
    have hm := pairwise_le_getLast (fun x => x.package_version) _ hfp hne e he2
    rw [hlast2] at hm
    exact hm

theorem filter_mergeSort_length (l : List MEntry) (p : MEntry → Bool) :
    ((l.mergeSort fun a b => verLeB a.package_version b.package_version).filter p).length =
      (l.filter p).length :=
  ((l.mergeSort_perm fun a b => verLeB a.package_version b.package_version).filter p).length_eq

theorem filter_mergeSort_eq_nil_iff (l : List MEntry) (p : MEntry → Bool) :
    ((l.mergeSort fun a b => verLeB a.package_version b.package_version).filter p = []) ↔
      l.filter p = [] := by
  have hlen := filter_mergeSort_length l p
  constructor
  · intro h
    apply List.eq_nil_of_length_eq_zero
    rw [← hlen, h]
    rfl
  · intro h
    apply List.eq_nil_of_length_eq_zero
    rw [hlen, h]
    rfl

/-- C4: whenever the fetched wheel fails the interpreter-version check,
the driver pops the next (newest remaining, hence progressively older)
candidate from the fallback ordering and retries with it; when the
ordering is exhausted the requirement fails (none) rather than looping
or silently succeeding, and any successful answer did pass the check. -/
theorem claim_C4_backtrack (verify : PEntry → Bool) (best_match : PEntry)
    (candidate : List PEntry) (hfail : verify best_match = false) :
    (candidate = [] → verify_backtrack verify best_match candidate = none) ∧
    (∀ (l : List PEntry) (x : PEntry), candidate = l ++ [x] →
      verify_backtrack verify best_match candidate = verify_backtrack verify x l) ∧
    ∀ r, verify_backtrack verify best_match candidate = some r → verify r = true := by
  refine ⟨?_, ?_, ?_⟩
  · intro hc
    subst hc
    rw [verify_backtrack, List.reverse_nil, verify_backtrack_rev]
    simp [hfail]
  · intro l x hc
    subst hc
    show verify_backtrack_rev verify best_match ((l ++ [x]).reverse) = _
    rw [List.reverse_append, List.reverse_singleton, List.singleton_append]
    rw [verify_backtrack_rev]
    simp only [hfail]
    rfl
  · intro r h
    exact verify_backtrack_some verify best_match candidate r h

/-- Witness for C4 at a concrete failing check and concrete candidates. -/
theorem claim_C4_witness :
    verify_backtrack (fun _ => false) exWheel10 [] = none ∧
    verify_backtrack (fun _ => false) exWheel10 [exSdist20] =
      verify_backtrack (fun _ => false) exSdist20 [] :=
  ⟨(claim_C4_backtrack (fun _ => false) exWheel10 [] rfl).1 rfl,
   (claim_C4_backtrack (fun _ => false) exWheel10 [exSdist20] rfl).2.1 [] exSdist20 rfl⟩

/-- C5: check_package_dependency answers true exactly when every marker
of the declaration evaluates true for at least one member of the
requested-extras set, an empty set being read as the single empty
extra. -/
theorem claim_C5_marker_activity (pkg_dep : PkgDep) (extra : List String)
    (py_env : MarkerEnv) :
    check_package_dependency pkg_dep extra py_env = true ↔
      ∀ m ∈ pkg_dep.package_markers, ∃ e ∈ (if extra = [] then [""] else extra),
        m (envInsert py_env "extra" e) = true := by
  cases extra with
  | nil =>
    simp [check_package_dependency, reduceOr_eq_any, List.all_eq_true,
      List.any_eq_true, List.any_map, Function.comp]
  | cons a as =>
    simp [check_package_dependency, reduceOr_eq_any, List.all_eq_true,
      List.any_eq_true, List.any_map, Function.comp]

/-- C6 counterexample: merging the exact pre-release pin ==1.2.3rc1
into an existing >=1.0 requirement makes the merged constraint accept
1.2.3rc1, a version the pre-merge constraint rejected — the pinning
clause enables pre-releases for the whole conjunction, so the
constraint does not only tighten. -/
theorem claim_C6_counterexample :
    SpecifierSet.containsVer
        (merge_requirement ⟨[], [⟨SpecOp.ge, ver10⟩]⟩ [] exSpecRc).package_version
        verRc = true ∧
    SpecifierSet.containsVer [⟨SpecOp.ge, ver10⟩] verRc = false := by
  decide

/-- C6 amended: merging a dependency declaration into an existing
requirement never shrinks the extras — every recorded extra survives
the set union — and the constraint only tightens over versions that are
not pre-releases or development releases: every such version the merged
constraint accepts was accepted before the merge.  For pre-release
versions the merge can widen acceptance, as when the new clauses pin a
pre-release exactly. -/
theorem claim_C6_merge_monotone (old : ReqEntry) (dep_extra : List String)
    (dep_ver : SpecifierSet) :
    (∀ e ∈ old.package_extra,
        e ∈ (merge_requirement old dep_extra dep_ver).package_extra) ∧
    ∀ v : Version, v.isPrerelease = false →
      SpecifierSet.containsVer
          (merge_requirement old dep_extra dep_ver).package_version v = true →
        SpecifierSet.containsVer old.package_version v = true := by
  constructor
  · intro e he
    simp only [merge_requirement, List.mem_dedup, List.mem_append]
    exact Or.inl he
  · intro v hv hpost
    simp only [merge_requirement] at hpost
    rw [intersect_containsVer_of_not_pre _ _ _ hv] at hpost
    exact ((Bool.and_eq_true _ _).mp hpost).1

/-- Witness for the amended C6 at a concrete requirement and
dependency. -/
theorem claim_C6_witness :
    "x" ∈ (merge_requirement ⟨["x"], [⟨SpecOp.ge, ver10⟩]⟩ ["y"]
        [⟨SpecOp.lt, ver20⟩]).package_extra ∧
    SpecifierSet.containsVer [⟨SpecOp.ge, ver10⟩] ⟨[1, 5], none, none, none⟩ = true :=
  ⟨(claim_C6_merge_monotone ⟨["x"], [⟨SpecOp.ge, ver10⟩]⟩ ["y"]
      [⟨SpecOp.lt, ver20⟩]).1 "x" (by decide),
   (claim_C6_merge_monotone ⟨["x"], [⟨SpecOp.ge, ver10⟩]⟩ ["y"]
      [⟨SpecOp.lt, ver20⟩]).2 ⟨[1, 5], none, none, none⟩ rfl (by decide)⟩

/-- C7 counterexample: the pre-release 1.2.3rc1 belongs to the
intersection of the exact pin ==1.2.3rc1 with >=1.0, yet does not
belong to >=1.0 alone — the pin enables pre-releases for the whole
conjunction, so membership in the intersection is not the conjunction
of the memberships. -/
theorem claim_C7_counterexample :
    SpecifierSet.containsVer
        (SpecifierSet.intersect exSpecRc [⟨SpecOp.ge, ver10⟩]) verRc = true ∧
    SpecifierSet.containsVer [⟨SpecOp.ge, ver10⟩] verRc = false := by
  decide

/-- C7 amended: for every version that is not a pre-release or
development release, membership in the intersection of two constraints
is exactly the conjunction of the two memberships; and for every
version, acceptance by both operands still implies acceptance by the
intersection.  Forming the intersection itself always succeeds, so an
unsatisfiable intersection is only ever detected by these membership
tests. -/
theorem claim_C7_intersect (a b : SpecifierSet) (v : Version) :
    (v.isPrerelease = false →
      SpecifierSet.containsVer (SpecifierSet.intersect a b) v =
        (SpecifierSet.containsVer a v && SpecifierSet.containsVer b v)) ∧
    (SpecifierSet.containsVer a v = true → SpecifierSet.containsVer b v = true →
      SpecifierSet.containsVer (SpecifierSet.intersect a b) v = true) :=
  ⟨fun hv => intersect_containsVer_of_not_pre a b v hv,
   fun h1 h2 => intersect_containsVer_of_both a b v h1 h2⟩

/-- Witness for the amended C7 at concrete constraints and versions. -/
theorem claim_C7_witness :
    SpecifierSet.containsVer
        (SpecifierSet.intersect [⟨SpecOp.ge, ver10⟩] [⟨SpecOp.lt, ver20⟩])
        ⟨[1, 5], none, none, none⟩ =
      (SpecifierSet.containsVer [⟨SpecOp.ge, ver10⟩] ⟨[1, 5], none, none, none⟩ &&
        SpecifierSet.containsVer [⟨SpecOp.lt, ver20⟩] ⟨[1, 5], none, none, none⟩) ∧
    SpecifierSet.containsVer (SpecifierSet.intersect exSpecRc exSpecRc) verRc = true :=
  ⟨(claim_C7_intersect [⟨SpecOp.ge, ver10⟩] [⟨SpecOp.lt, ver20⟩]
      ⟨[1, 5], none, none, none⟩).1 rfl,
   (claim_C7_intersect exSpecRc exSpecRc verRc).2 (by decide) (by decide)⟩

/-- C9 counterexample: on a self-dependency whose merge changes nothing,
one driver step returns the state unchanged with the package re-enqueued
on the nonempty worklist, so the loop never reaches the empty-worklist
exit: the claimed fixpoint cut does not exist in the code. -/
theorem claim_C9_counterexample :
    driver_step exGraph exDriverState = some exDriverState ∧
    exDriverState.dep_pkg_names = ["A"] ∧
    merge_dep exDriverState.new_req ⟨"A", [], []⟩ = exDriverState.new_req := by
  decide

/-- C9 amended: the worklist loop enqueues every active dependency name
unconditionally, whether or not the merge changed the requirement, so
termination on cyclic dependency graphs is not guaranteed. -/
theorem claim_C9_amended (active_deps : String → List DepDecl) (s t : DriverState)
    (pkg_name : String) (rest : List String)
    (hwl : s.dep_pkg_names = pkg_name :: rest)
    (hstep : driver_step active_deps s = some t) :
    ∀ d ∈ active_deps pkg_name, d.package_name ∈ t.dep_pkg_names := by
  intro d hd
  simp only [driver_step, hwl] at hstep
  have ht := Option.some_inj.mp hstep
  rw [← ht]
  simp only [List.mem_append]
  right
  exact List.mem_map_of_mem (fun d => d.package_name) hd

/-- Witness for the amended C9 at the concrete self-dependency. -/
theorem claim_C9_witness : "A" ∈ exDriverState.dep_pkg_names :=
  claim_C9_amended exGraph exDriverState exDriverState "A" [] rfl (by decide)
    ⟨"A", [], []⟩ (by decide)

/-- C10: whenever the cache and the file hold ascending data, every list
get_wheel_index returns is ascending by version — the fresh fetch is
sorted before being returned, memoized and persisted, and the cache and
file paths return their stored order — and the updated state satisfies
the same invariant. -/
theorem claim_C10_sorted_invariant (st : IndexState) (fetched : List PEntry)
    (hinv : IndexInv st) :
    SortedIndex (get_wheel_index st fetched).1 ∧
      IndexInv (get_wheel_index st fetched).2 := by
  obtain ⟨hc, hf⟩ := hinv
  obtain ⟨cache, file⟩ := st
  cases cache with
  | some cached => exact ⟨hc cached rfl, hc, hf⟩
  | none =>
    cases file with
    | some j =>
      refine ⟨hf j rfl, ?_, hf⟩
      intro c hc'
      simp [get_wheel_index] at hc'
    | none =>
      refine ⟨sortedIndex_mergeSort fetched, fun c hc' => ?_, fun f hf' => ?_⟩
      · have h := Option.some_inj.mp hc'
        rw [← h]
        exact sortedIndex_mergeSort fetched
      · have h := Option.some_inj.mp hf'
        rw [← h, List.map_map]
        have hcomp : decode_index_data ∘ encode_index_data = id :=
          funext fun e => decode_encode e
        rw [hcomp, List.map_id]
        exact sortedIndex_mergeSort fetched

/-- Witness for C10 at a concrete populated cache. -/
theorem claim_C10_witness :
    SortedIndex (get_wheel_index ⟨some [exWheel10, exSdist20], none⟩ []).1 :=
  (claim_C10_sorted_invariant ⟨some [exWheel10, exSdist20], none⟩ []
    ⟨fun c hc => by injection hc with h; rw [← h]; decide,
     fun f hf => nomatch hf⟩).1

/-- C1 counterexample: with an ascending index holding a wheel at 1.0
and a source distribution at 2.0, both surviving the tag, version and
constraint filters, selection returns the wheel as best even though the
survivor of maximum version is the newer source distribution — the
wheel-only extension filter, absent from the claim, decides the
outcome. -/
theorem claim_C1_counterexample :
    get_suitable_package "pkg" [exWheel10, exSdist20] [] ["py3-none-any"] =
        some (exWheel10, []) ∧
    exSdist20 ∈ tagVerSurvivors [exWheel10, exSdist20] [] ["py3-none-any"] ∧
    verLeB exSdist20.package_version exWheel10.package_version = false := by
  decide

/-- C1 amended: for every ascending index, whenever at least one entry
survives the tag, version, constraint and wheel-only filters,
get_suitable_package returns as best the surviving entry of maximum
version and as fallback ordering all other survivors still in ascending
order, popping from whose end yields progressively older candidates. -/
theorem claim_C1_amended (pa_name : String) (pa_index : List PEntry)
    (pa_ver_spec : SpecifierSet) (sys_prof : List Tag) (best : PEntry)
    (fb : List PEntry) (hsorted : SortedIndex pa_index)
    (hres : get_suitable_package pa_name pa_index pa_ver_spec sys_prof =
      some (best, fb)) :
    (∀ e ∈ wheelSurvivors pa_index pa_ver_spec sys_prof,
        verLeB e.package_version best.package_version = true) ∧
    SortedIndex fb ∧
    fb ++ [best] = wheelSurvivors pa_index pa_ver_spec sys_prof := by
  rw [get_suitable_package_eq] at hres
  have hLs : SortedIndex (wheelSurvivors pa_index pa_ver_spec sys_prof) :=
    (((hsorted.filter _).filter _).filter _)
  cases hL : (wheelSurvivors pa_index pa_ver_spec sys_prof).getLast? with
  | none => rw [hL] at hres; exact absurd hres (by simp)
  | some b0 =>
    rw [hL] at hres
    have hinj := Option.some_inj.mp hres
    have hb1 : b0 = best := congrArg Prod.fst hinj
    have hb2 : (wheelSurvivors pa_index pa_ver_spec sys_prof).dropLast = fb :=
      congrArg Prod.snd hinj
    have hne : wheelSurvivors pa_index pa_ver_spec sys_prof ≠ [] := by
      intro he
      rw [he] at hL
      simp at hL
    have hlast : (wheelSurvivors pa_index pa_ver_spec sys_prof).getLast hne = b0 := by
      rw [List.getLast?_eq_getLast _ hne] at hL
      exact Option.some_inj.mp hL
    refine ⟨?_, ?_, ?_⟩
    · intro e he
      have hm := pairwise_le_getLast (fun x => x.package_version) _ hLs hne e he
      rw [hlast, hb1] at hm
      exact hm
    · rw [← hb2]
      exact List.Pairwise.sublist (List.dropLast_sublist _) hLs
    · rw [← hb2, ← hb1, ← hlast]
      exact List.dropLast_append_getLast hne

/-- Witness for the amended C1 at a concrete ascending index. -/
theorem claim_C1_witness :
    ([] : List PEntry) ++ [exWheel10] =
      wheelSurvivors [exWheel10, exSdist20] [] ["py3-none-any"] :=
  (claim_C1_amended "pkg" [exWheel10, exSdist20] [] ["py3-none-any"] exWheel10 []
    (by decide) (by decide)).2.2

/-- C2 counterexample: a wheel at the pre-release 1.2.3rc1 under the
constraint that pins exactly that version — the constraint accepts the
version, yet selection fails instead of returning it, because the
version filter drops every pre-release unconditionally. -/
theorem claim_C2_counterexample :
    SpecifierSet.containsVer exSpecRc verRc = true ∧
    get_suitable_package "pkg" [exRcWheel] exSpecRc ["py3-none-any"] = none := by
  decide

/-- C2 amended: selection never returns an artifact whose version is a
pre-release or a development release — even when the requirement pins
that exact version; the exception clause of the claim does not hold on
this code. -/
theorem claim_C2_amended (pa_name : String) (pa_index : List PEntry)
    (pa_ver_spec : SpecifierSet) (sys_prof : List Tag) (best : PEntry)
    (fb : List PEntry)
    (hres : get_suitable_package pa_name pa_index pa_ver_spec sys_prof =
      some (best, fb)) :
    (best.package_version.isPrerelease = false ∧
      best.package_version.isDevrelease = false) ∧
    ∀ e ∈ fb, e.package_version.isPrerelease = false ∧
      e.package_version.isDevrelease = false := by
  rw [get_suitable_package_eq] at hres
  cases hL : (wheelSurvivors pa_index pa_ver_spec sys_prof).getLast? with
  | none => rw [hL] at hres; exact absurd hres (by simp)
  | some b0 =>
    rw [hL] at hres
    have hinj := Option.some_inj.mp hres
    have hb1 : b0 = best := congrArg Prod.fst hinj
    have hb2 : (wheelSurvivors pa_index pa_ver_spec sys_prof).dropLast = fb :=
      congrArg Prod.snd hinj
    have hne : wheelSurvivors pa_index pa_ver_spec sys_prof ≠ [] := by
      intro he
      rw [he] at hL
      simp at hL
    have hlast : (wheelSurvivors pa_index pa_ver_spec sys_prof).getLast hne = b0 := by
      rw [List.getLast?_eq_getLast _ hne] at hL
      exact Option.some_inj.mp hL
    constructor
    · have hmem : best ∈ wheelSurvivors pa_index pa_ver_spec sys_prof := by
        rw [← hb1, ← hlast]
        exact List.getLast_mem hne
      exact filter_by_version_no_pre (mem_wheelSurvivors hmem).1
    · intro e he
      have hmem : e ∈ wheelSurvivors pa_index pa_ver_spec sys_prof := by
        rw [← hb2] at he
        exact (List.dropLast_sublist _).subset he
      exact filter_by_version_no_pre (mem_wheelSurvivors hmem).1

/-- Witness for the amended C2 at a concrete selection. -/
theorem claim_C2_witness : exWheel10.package_version.isPrerelease = false :=
  ((claim_C2_amended "pkg" [exWheel10] [] ["py3-none-any"] exWheel10 []
    (by decide)).1).1

/-- C3 counterexample: an index whose only entry is a source
distribution that survives the tag, version and constraint filters —
the tag filter indeed never drops it, yet selection fails with no
suitable package instead of returning the sdist, because the extension
filter removes every non-wheel. -/
theorem claim_C3_counterexample :
    filter_by_tag [] exSdist20 = true ∧
    exSdist20 ∈ tagVerSurvivors [exSdist20] [] [] ∧
    get_suitable_package "pkg" [exSdist20] [] [] = none := by
  decide

/-- C3 amended: entries with no tags are universally compatible for the
tag filter, which never drops them; but selection only ever returns
wheel artifacts — best and every fallback have the wheel extension — so
an index whose only constraint-satisfying entry is an sdist fails
rather than returning it. -/
theorem claim_C3_amended :
    (∀ (sys_prof : List Tag) (x : PEntry), x.tags = none →
      filter_by_tag sys_prof x = true) ∧
    ∀ (pa_name : String) (pa_index : List PEntry) (pa_ver_spec : SpecifierSet)
      (sys_prof : List Tag) (best : PEntry) (fb : List PEntry),
      get_suitable_package pa_name pa_index pa_ver_spec sys_prof =
          some (best, fb) →
        best.extension = "whl" ∧ ∀ e ∈ fb, e.extension = "whl" := by
  constructor
  · intro sys_prof x hx
    rw [filter_by_tag, hx]
  · intro pa_name pa_index pa_ver_spec sys_prof best fb hres
    rw [get_suitable_package_eq] at hres
    cases hL : (wheelSurvivors pa_index pa_ver_spec sys_prof).getLast? with
    | none => rw [hL] at hres; exact absurd hres (by simp)
    | some b0 =>
      rw [hL] at hres
      have hinj := Option.some_inj.mp hres
      have hb1 : b0 = best := congrArg Prod.fst hinj
      have hb2 : (wheelSurvivors pa_index pa_ver_spec sys_prof).dropLast = fb :=
        congrArg Prod.snd hinj
      have hne : wheelSurvivors pa_index pa_ver_spec sys_prof ≠ [] := by
        intro he
        rw [he] at hL
        simp at hL
      have hlast : (wheelSurvivors pa_index pa_ver_spec sys_prof).getLast hne = b0 := by
        rw [List.getLast?_eq_getLast _ hne] at hL
        exact Option.some_inj.mp hL
      constructor
      · have hmem : best ∈ wheelSurvivors pa_index pa_ver_spec sys_prof := by
          rw [← hb1, ← hlast]
          exact List.getLast_mem hne
        exact eq_of_beq (mem_wheelSurvivors hmem).2
      · intro e he
        have hmem : e ∈ wheelSurvivors pa_index pa_ver_spec sys_prof := by
          rw [← hb2] at he
          exact (List.dropLast_sublist _).subset he
        exact eq_of_beq (mem_wheelSurvivors hmem).2

/-- Witness for the amended C3 at concrete inputs. -/
theorem claim_C3_witness :
    filter_by_tag ["t"] exSdist20 = true ∧ exWheel10.extension = "whl" :=
  ⟨claim_C3_amended.1 ["t"] exSdist20 rfl,
   (claim_C3_amended.2 "pkg" [exWheel10] [] ["py3-none-any"] exWheel10 []
     (by decide)).1⟩

theorem lastToList_length (l : List MEntry) :
    (lastToList l).length = if l = [] then 0 else 1 := by
  rw [lastToList]
  cases hl : l.getLast? with
  | none =>
    rw [List.getLast?_eq_none_iff] at hl
    simp [hl]
  | some x =>
    have hne : l ≠ [] := by
      intro he
      subst he
      simp at hl
    simp [hne]

theorem mem_lastToList {l : List MEntry} {b : MEntry} (hb : b ∈ lastToList l) :
    l.getLast? = some b := by
  rw [lastToList] at hb
  cases hl : l.getLast? with
  | none => rw [hl] at hb; simp at hb
  | some x => rw [hl] at hb; simp at hb; rw [hb]

/-- C8: for a variant-tracked family resolved through the torch
selection with a single version constraint, the result holds exactly one
artifact per nonempty CUDA variant track — not a single global best —
and each returned artifact is a constraint-satisfying member of its own
track that is newest within that track. -/
theorem claim_C8_per_track (package_data : List MEntry) (python_version : String)
    (spec : SpecifierSet) (r : List MEntry)
    (hres : get_suitable_torch_package_impl package_data "torch" python_version
        [("torch", [ReqVer.vers spec])] = some r) :
    (r.length =
      (if torchTrackSurvivors package_data python_version spec "cu118" = []
        then 0 else 1) +
      (if torchTrackSurvivors package_data python_version spec "cu126" = []
        then 0 else 1) +
      (if torchTrackSurvivors package_data python_version spec "cu128" = []
        then 0 else 1)) ∧
    ∀ b ∈ r, ∃ t, (t = "cu118" ∨ t = "cu126" ∨ t = "cu128") ∧
      b ∈ torchTrackSurvivors package_data python_version spec t ∧
      ∀ e ∈ torchTrackSurvivors package_data python_version spec t,
        verLeB e.package_version b.package_version = true := by
  simp only [get_suitable_torch_package_impl, List.lookup, beq_self_eq_true,
    List.foldlM, torch_req_step, bind_pure] at hres
  split at hres
  · exact absurd hres (by simp)
  · have hr := Option.some_inj.mp hres
    rw [← hr]
    constructor
    · simp only [List.nil_append, List.length_append, lastToList_length]
      have h118 := filter_mergeSort_eq_nil_iff
        (((package_data.filter (filter_python_version (py_version_str python_version))).filter
            fun x => x.extension == "whl").filter
          fun x => versionHasTag x.package_version "cu118") (filter_package_version spec)
      have h126 := filter_mergeSort_eq_nil_iff
        (((package_data.filter (filter_python_version (py_version_str python_version))).filter
            fun x => x.extension == "whl").filter
          fun x => versionHasTag x.package_version "cu126") (filter_package_version spec)
      have h128 := filter_mergeSort_eq_nil_iff
        (((package_data.filter (filter_python_version (py_version_str python_version))).filter
            fun x => x.extension == "whl").filter
          fun x => versionHasTag x.package_version "cu128") (filter_package_version spec)
      rw [if_congr h118 rfl rfl, if_congr h126 rfl rfl, if_congr h128 rfl rfl,
        torchTrackSurvivors, torchTrackSurvivors, torchTrackSurvivors]
    · intro b hb
      simp only [List.nil_append, List.mem_append] at hb
      rcases hb with (hb | hb) | hb
      · have ht := mem_lastToList hb
        have hmax := filter_mergeSort_getLast_max _ _ _ ht
        refine ⟨"cu118", Or.inl rfl, ?_, ?_⟩
        · rw [torchTrackSurvivors]
          exact hmax.1
        · intro e he
          rw [torchTrackSurvivors] at he
          exact hmax.2 e he
      · have ht := mem_lastToList hb
        have hmax := filter_mergeSort_getLast_max _ _ _ ht
        refine ⟨"cu126", Or.inr (Or.inl rfl), ?_, ?_⟩
        · rw [torchTrackSurvivors]
          exact hmax.1
        · intro e he
          rw [torchTrackSurvivors] at he
          exact hmax.2 e he
      · have ht := mem_lastToList hb
        have hmax := filter_mergeSort_getLast_max _ _ _ ht
        refine ⟨"cu128", Or.inr (Or.inr rfl), ?_, ?_⟩
        · rw [torchTrackSurvivors]
          exact hmax.1
        · intro e he
          rw [torchTrackSurvivors] at he
          exact hmax.2 e he

unseal List.merge List.mergeSort in
/-- Witness for C8: the spec's variant-track scenario, two wheels at the
same base version on the cu118 and cu126 tracks with the exact pin, one
best returned per track. -/
theorem claim_C8_witness :
    ([exTorch118, exTorch126] : List MEntry).length =
      (if torchTrackSurvivors [exTorch118, exTorch126] "3.10" exSpec251 "cu118" = []
        then 0 else 1) +
      (if torchTrackSurvivors [exTorch118, exTorch126] "3.10" exSpec251 "cu126" = []
        then 0 else 1) +
      (if torchTrackSurvivors [exTorch118, exTorch126] "3.10" exSpec251 "cu128" = []
        then 0 else 1) :=
  (claim_C8_per_track [exTorch118, exTorch126] "3.10" exSpec251
    [exTorch118, exTorch126] (by decide)).1

/-- Witness for C5: a single marker requiring the empty extra is active
for a base install with no requested extras. -/
theorem claim_C5_witness :
    check_package_dependency ⟨"dep", [], [], [fun env => env "extra" == ""]⟩ []
      (fun _ => "") = true :=
  (claim_C5_marker_activity ⟨"dep", [], [], [fun env => env "extra" == ""]⟩ []
    (fun _ => "")).mpr (by
      intro m hm
      rw [List.mem_singleton] at hm
      subst hm
      exact ⟨"", by simp, by rfl⟩)
